import Mathlib

/-!
Shallow embedding of the durable action scheduler of the BUSY backend
(`app/scheduler/__init__.py`) and of the billing actions built on it
(`app/common/billing_actions.py`, `app/common/__init__.py`,
`app/db/model.py`, `app/db/interface.py`).

Python dictionaries are modelled as association lists (`List (String × _)`)
with insertion-order semantics; the module-level mutable state of the
scheduler (the persisted `scheduled_actions` table, the autoincrement id
counter and the in-memory `scheduled_tasks` index) is threaded explicitly
as a `SchedState`.  Timestamps and timedeltas are integers (seconds).
External collaborators (the payment gateway, telegram notification calls)
are inputs to the embedded functions: a charge call is represented by its
outcome, and notification sends are not part of the scheduler state.
-/

namespace Busy

/-- JSON-like values appearing in a scheduled action's `args` mapping and in
a user's `extra_data` mapping. -/
inductive Value where
  | int (n : Int)
  | str (s : String)
  | bool (b : Bool)
  | null
deriving DecidableEq, Repr

/-- A Python `dict` with string keys, as an insertion-ordered association list. -/
abbrev Dict (α : Type) := List (String × α)

abbrev Args := Dict Value

/-- Python `d[k] = v` / `d | {k: v}`: replaces the value of an existing key in
place (dicts keep the original position of an updated key), appends otherwise. -/
def dictInsert {α : Type} : Dict α → String → α → Dict α
  | [], k, v => [(k, v)]
  | (k2, v2) :: rest, k, v =>
    if k2 = k then (k, v) :: rest else (k2, v2) :: dictInsert rest k v

/-- A row of the `scheduled_actions` table (`db.ScheduledAction`, app/db/model.py). -/
structure ScheduledAction where
  id : Nat
  user_id : Option Int
  time : Int
  done : Bool
  type : String
  args : Args
deriving DecidableEq, Repr

/-- The scheduler's state: the persisted store, the autoincrement counter
backing `ScheduledAction.id`, and the module-level `scheduled_tasks`
dictionary of armed asyncio tasks (only the key set matters: an id is in
`tasks` exactly when a live `scheduled_tasks[id]` entry exists). -/
structure SchedState where
  store : List ScheduledAction
  nextId : Nat
  tasks : Finset Nat
deriving DecidableEq

/-- `DatabaseApi.get_scheduled_action` (app/db/interface.py): select the row
with the given primary key. -/
def get_scheduled_action (store : List ScheduledAction) (action_id : Nat) :
    Option ScheduledAction :=
  store.find? (fun a => a.id == action_id)

/-- `DatabaseApi.find_scheduled_actions` (app/db/interface.py): filter by
optional `user_id`, optional `type ∈ action_types`, optional `done`. -/
def find_scheduled_actions (store : List ScheduledAction)
    (user_id : Option Int) (done : Option Bool)
    (action_types : Option (List String)) : List ScheduledAction :=
  (((store.filter (fun a =>
      match user_id with
      | none => true
      | some uid => a.user_id == some uid)).filter (fun a =>
      match action_types with
      | none => true
      | some ts => ts.contains a.type)).filter (fun a =>
      match done with
      | none => true
      | some d => a.done == d))

/-- The ORM write `action.done = True` (persisted on session exit). -/
def markDone (store : List ScheduledAction) (action_id : Nat) :
    List ScheduledAction :=
  store.map (fun a => if a.id = action_id then { a with done := true } else a)

/-- `kwargs['user_id'] if "user_id" in kwargs else None` in
`raw_schedule_action`.  Every caller in the repository passes an integer
`user_id`, so the extracted value is modelled as the integer payload. -/
def extractUserId (kwargs : Args) : Option Int :=
  match kwargs.lookup "user_id" with
  | some (Value.int n) => some n
  | _ => none

/-- `raw_schedule_action` (app/scheduler/__init__.py): insert a pending row
(the flush assigns the autoincrement id), arm a task for it, return the id. -/
def raw_schedule_action (st : SchedState) (action_type : String) (time : Int)
    (kwargs : Args) : SchedState × Nat :=
  let action : ScheduledAction :=
    { id := st.nextId
      user_id := extractUserId kwargs
      time := time
      done := false
      type := action_type
      args := kwargs }
  ({ store := st.store ++ [action]
     nextId := st.nextId + 1
     tasks := insert st.nextId st.tasks }, st.nextId)

/-- `raw_cancel_action` (app/scheduler/__init__.py).  Missing or already-done
rows only produce a log line; a pending row gets `done := true` and its task
is cancelled and dropped from `scheduled_tasks` (when, unexpectedly, no task
is indexed for it, an error is logged but `done := true` still persists). -/
def raw_cancel_action (st : SchedState) (action_id : Nat) : SchedState :=
  match get_scheduled_action st.store action_id with
  | none => st
  | some action =>
    if action.done then st
    else
      let store2 := markDone st.store action_id
      if action_id ∈ st.tasks then
        { st with store := store2, tasks := st.tasks.erase action_id }
      else
        { st with store := store2 }

/-- Handlers are identified opaquely; only the registry bookkeeping matters. -/
abbrev HandlerId := Nat

/-- The module-level `handlers` dictionary. -/
abbrev Handlers := Dict HandlerId

/-- `raw_action_handler` (app/scheduler/__init__.py): the decorator body is a
bare `handlers[action_type] = func` — no duplicate check. -/
def raw_action_handler (handlers : Handlers) (action_type : String)
    (func : HandlerId) : Handlers :=
  dictInsert handlers action_type func

/-- `Action.__init_subclass__` (app/scheduler/__init__.py): raises
`ValueError` when `action_name` is already registered, otherwise registers
the subclass's `do_handle` adapter. -/
def Action_init_subclass (handlers : Handlers) (action_name : String)
    (do_handle : HandlerId) : Except String Handlers :=
  if (handlers.lookup action_name).isSome then
    Except.error "Action already exists"
  else
    Except.ok (dictInsert handlers action_name do_handle)

/-- How the invoked handler coroutine behaves: returns cleanly or raises. -/
inductive HandlerOutcome where
  | clean
  | raised
deriving DecidableEq, Repr

/-- `_perform_action` (app/scheduler/__init__.py): unknown type logs an error
and returns (no `done` write); a raising handler propagates the exception
before the `done := true` write is reached; a clean return marks the row
done (when the row is still present). -/
def perform_action (handlers : Handlers) (outcome : HandlerOutcome)
    (st : SchedState) (action_id : Nat) (action_type : String) :
    Except Unit SchedState :=
  if (handlers.lookup action_type).isNone then
    Except.ok st
  else
    match outcome with
    | HandlerOutcome.raised => Except.error ()
    | HandlerOutcome.clean =>
      Except.ok { st with store := markDone st.store action_id }

/-- `_scheduled_action_task` (app/scheduler/__init__.py), state effect after
the wait: exceptions escaping `_perform_action` are caught and logged. -/
def scheduled_action_task (handlers : Handlers) (outcome : HandlerOutcome)
    (st : SchedState) (action_id : Nat) (action_type : String) : SchedState :=
  match perform_action handlers outcome st action_id action_type with
  | Except.ok st2 => st2
  | Except.error _ => st

/-- The argument `wait_until` passes to `asyncio.sleep`: `(dt - now)`. -/
def wait_until_delay (dt now : Int) : Int := dt - now

/-- The instant at which a task armed at `now` for due time `dt` fires:
`asyncio.sleep` treats a non-positive delay as zero, so the task fires at
`now + max (dt - now) 0`. -/
def fire_time (dt now : Int) : Int := now + max (wait_until_delay dt now) 0

/-- `_get_scheduled_actions` (app/scheduler/__init__.py): all rows with
`done = false`. -/
def get_pending_actions (store : List ScheduledAction) : List ScheduledAction :=
  store.filter (fun a => !a.done)

/-- The startup scan of `run` (app/scheduler/__init__.py): arm a task for
every pending row and index it in `scheduled_tasks`. -/
def scheduler_run (st : SchedState) : SchedState :=
  { st with
    tasks := (get_pending_actions st.store).foldl
      (fun ts a => insert a.id ts) st.tasks }

/-- `ActionHandle` (app/scheduler/__init__.py). -/
structure ActionHandle where
  action_id : Nat
deriving DecidableEq, Repr

/-- `ActionHandle.get_action`: raises `ValueError` when no row exists for the
handle's id. -/
def ActionHandle.get_action (h : ActionHandle)
    (store : List ScheduledAction) : Except String ScheduledAction :=
  match get_scheduled_action store h.action_id with
  | none => Except.error "Handle points to missing action"
  | some a => Except.ok a

/-- `ActionHandle.is_done`: the `done` flag of the fetched row. -/
def ActionHandle.is_done (h : ActionHandle)
    (store : List ScheduledAction) : Except String Bool :=
  (h.get_action store).map ScheduledAction.done

/-! ## Billing layer (app/common/__init__.py, app/common/billing_actions.py) -/

/-- `common.CHARGE_RETRY_PERIOD = timedelta(days=1)`, in seconds. -/
def CHARGE_RETRY_PERIOD : Int := 86400

/-- `common.AUTO_KICK_PERIOD = timedelta(days=30)`, in seconds. -/
def AUTO_KICK_PERIOD : Int := 2592000

/-- `common.CHARGE_RETRIES_COUNT = 2`. -/
def CHARGE_RETRIES_COUNT : Int := 2

/-- `common.ExtraData.ADVANCED_SERVICE_STATE`. -/
def ADVANCED_SERVICE_STATE : String := "advance_service_state"

/-- `common.ExtraData.FAILED_RECURRENT_RECOVERED`. -/
def FAILED_RECURRENT_RECOVERED : String := "failed_recurrent_recovered"

/-- `common.AdvanceServiceState.UNUSED = 1`. -/
def AdvanceServiceState_UNUSED : Int := 1

/-- The action-type names of `BillingActions` (app/common/billing_actions.py). -/
def BillingActions_RecurrentPayment : String := "recurrent_payment"

def BillingActions_RecurrentPaymentRetry : String := "recurrent_payment_retry"

def BillingActions_KickInactive : String := "pishov_nahui"

def BillingActions_ExtraPlanPaymentRetry : String := "extra_plan_payment_retry"

def BillingActions_ExtraPlanReset : String := "extra_plan_reset"

/-- The slice of a `db.Plan` row that `RecurrentPaymentAction.run` reads. -/
structure Plan where
  id : Nat
  price : Option Int
deriving DecidableEq, Repr

/-- The slice of a `db.User` row that the billing actions read and write. -/
structure User where
  id : Int
  telegram_id : Option String
  subscription : Option Plan
  extra_data : Args
deriving DecidableEq, Repr

/-- `DatabaseApi.find_user(user_id=...)`: lookup by primary key. -/
def find_user (users : List User) (user_id : Int) : Option User :=
  users.find? (fun u => u.id == user_id)

/-! ### Typed actions and their dataclass serialization -/

/-- `RecurrentPaymentAction` payload (its declared dataclass fields). -/
structure RecurrentPaymentAction where
  user_id : Int
  retries_left : Int
deriving DecidableEq, Repr

/-- `ExtraPlanPaymentRetryAction` payload. -/
structure ExtraPlanPaymentRetryAction where
  user_id : Int
  retries_left : Int
  deadline : String
deriving DecidableEq, Repr

/-- `ExtraPlanResetAction` payload. -/
structure ExtraPlanResetAction where
  user_id : Int
deriving DecidableEq, Repr

/-- `KickInactiveAction` payload. -/
structure KickInactiveAction where
  user_id : Int
deriving DecidableEq, Repr

/-- `Action.deserialize` fails: the `assert field_name in fields` loop, or
`cls(**data)` itself (a required field missing from `data`). -/
inductive DeserializeError where
  | assertUnknownField (name : String)
  | typeError
deriving DecidableEq, Repr

/-- The `for field_name in data: assert field_name in fields` loop of
`Action.deserialize`: the first key of `data` that is not a declared field,
in iteration (insertion) order. -/
def firstUnknownField (fields : List String) : Args → Option String
  | [] => none
  | (k, _) :: rest =>
    if fields.contains k then firstUnknownField fields rest else some k

/-- The concrete `Action` subclasses declared in billing_actions.py. -/
inductive ActionClass where
  | recurrentPayment
  | extraPlanPaymentRetry
  | extraPlanReset
  | kickInactive
deriving DecidableEq, Repr

/-- `dataclasses.fields(cls)` for each concrete class. -/
def ActionClass.fields : ActionClass → List String
  | ActionClass.recurrentPayment => ["user_id", "retries_left"]
  | ActionClass.extraPlanPaymentRetry => ["user_id", "retries_left", "deadline"]
  | ActionClass.extraPlanReset => ["user_id"]
  | ActionClass.kickInactive => ["user_id"]

/-- A value of any of the concrete `Action` subclasses. -/
inductive AnyAction where
  | recurrentPayment (a : RecurrentPaymentAction)
  | extraPlanPaymentRetry (a : ExtraPlanPaymentRetryAction)
  | extraPlanReset (a : ExtraPlanResetAction)
  | kickInactive (a : KickInactiveAction)
deriving DecidableEq, Repr

/-- The concrete class of a typed action value. -/
def AnyAction.cls : AnyAction → ActionClass
  | AnyAction.recurrentPayment _ => ActionClass.recurrentPayment
  | AnyAction.extraPlanPaymentRetry _ => ActionClass.extraPlanPaymentRetry
  | AnyAction.extraPlanReset _ => ActionClass.extraPlanReset
  | AnyAction.kickInactive _ => ActionClass.kickInactive

/-- `Action.serialize = dataclasses.asdict(self)`: the mapping of exactly the
declared fields, in declaration order. -/
def AnyAction.serialize : AnyAction → Args
  | AnyAction.recurrentPayment a =>
    [("user_id", Value.int a.user_id), ("retries_left", Value.int a.retries_left)]
  | AnyAction.extraPlanPaymentRetry a =>
    [("user_id", Value.int a.user_id), ("retries_left", Value.int a.retries_left),
     ("deadline", Value.str a.deadline)]
  | AnyAction.extraPlanReset a => [("user_id", Value.int a.user_id)]
  | AnyAction.kickInactive a => [("user_id", Value.int a.user_id)]

/-- `Action.deserialize(data)` for a known concrete class: assert that every
key of `data` is a declared field, then `cls(**data)` (which needs every
declared field present). -/
def ActionClass.deserialize (c : ActionClass) (data : Args) :
    Except DeserializeError AnyAction :=
  match firstUnknownField c.fields data with
  | some name => Except.error (DeserializeError.assertUnknownField name)
  | none =>
    match c with
    | ActionClass.recurrentPayment =>
      match data.lookup "user_id", data.lookup "retries_left" with
      | some (Value.int u), some (Value.int r) =>
        Except.ok (AnyAction.recurrentPayment ⟨u, r⟩)
      | _, _ => Except.error DeserializeError.typeError
    | ActionClass.extraPlanPaymentRetry =>
      match data.lookup "user_id", data.lookup "retries_left",
          data.lookup "deadline" with
      | some (Value.int u), some (Value.int r), some (Value.str d) =>
        Except.ok (AnyAction.extraPlanPaymentRetry ⟨u, r, d⟩)
      | _, _, _ => Except.error DeserializeError.typeError
    | ActionClass.extraPlanReset =>
      match data.lookup "user_id" with
      | some (Value.int u) => Except.ok (AnyAction.extraPlanReset ⟨u⟩)
      | _ => Except.error DeserializeError.typeError
    | ActionClass.kickInactive =>
      match data.lookup "user_id" with
      | some (Value.int u) => Except.ok (AnyAction.kickInactive ⟨u⟩)
      | _ => Except.error DeserializeError.typeError

/-! ### RecurrentPaymentAction.run -/

/-- Outcome of the external `cp_methods.charge` call together with the
`common.activate_plan` result it feeds on success (`activate_plan` returns
the start of the next active plan period). -/
inductive ChargeResult where
  | ok (transaction_id : Int) (next_active_plan_start : Int)
  | paymentError
deriving DecidableEq, Repr

/-- A `schedule` call issued from inside a handler: which typed action was
scheduled and for when. -/
inductive SchedReq where
  | recurrentPayment (a : RecurrentPaymentAction) (time : Int)
  | kickInactive (a : KickInactiveAction) (time : Int)
deriving DecidableEq, Repr

/-- What a single `RecurrentPaymentAction.run(dt)` did: the early-return and
assert paths, or the schedule requests it issued together with the
`FAILED_RECURRENT_RECOVERED` marker it wrote on the user.  The telegram
notification sent after the session closes is external I/O and carries no
scheduler state. -/
inductive RunResult where
  | userNotFound
  | noPlan
  | priceAssertFailed
  | ran (reqs : List SchedReq) (failedRecurrentRecovered : Bool)
deriving DecidableEq, Repr

/-- `RecurrentPaymentAction.run` (app/common/billing_actions.py, lines
36-91), with the charge call's outcome as an input.  On success the action
reschedules itself with a fresh `CHARGE_RETRIES_COUNT` budget for the next
billing period; on `CpPaymentError` it retries after `CHARGE_RETRY_PERIOD`
while `retries_left > 0`, decrementing the budget, and otherwise schedules a
`KickInactiveAction` at `dt + AUTO_KICK_PERIOD`. -/
def RecurrentPaymentAction.run (users : List User) (charge : ChargeResult)
    (a : RecurrentPaymentAction) (dt : Int) : RunResult :=
  match find_user users a.user_id with
  | none => RunResult.userNotFound
  | some user =>
    match user.subscription with
    | none => RunResult.noPlan
    | some plan =>
      match plan.price with
      | none => RunResult.priceAssertFailed
      | some price =>
        if price = 0 then RunResult.priceAssertFailed
        else
          match charge with
          | ChargeResult.ok _tx next_start =>
            RunResult.ran
              [SchedReq.recurrentPayment ⟨a.user_id, CHARGE_RETRIES_COUNT⟩ next_start]
              true
          | ChargeResult.paymentError =>
            if a.retries_left > 0 then
              RunResult.ran
                [SchedReq.recurrentPayment ⟨a.user_id, a.retries_left - 1⟩
                  (dt + CHARGE_RETRY_PERIOD)]
                false
            else
              RunResult.ran
                [SchedReq.kickInactive ⟨a.user_id⟩ (dt + AUTO_KICK_PERIOD)]
                false

/-- Whether `RecurrentPaymentAction.run` reaches its charge call for this
user: the user exists, has a subscription plan, and the plan's price passes
the `assert plan_price` (not `None`, not `0`). -/
def chargeReachable (users : List User) (user_id : Int) : Bool :=
  match find_user users user_id with
  | none => false
  | some user =>
    match user.subscription with
    | none => false
    | some plan =>
      match plan.price with
      | none => false
      | some price => price != 0

/-- The chain of schedule requests produced by repeatedly firing the
recurrent-payment action while every charge raises `CpPaymentError`: each
rescheduled `RecurrentPaymentAction` is fired at its own scheduled time and
fails again, up to the given number of consecutive failures. -/
def consecutiveFailures (users : List User) (a : RecurrentPaymentAction)
    (dt : Int) : Nat → List SchedReq
  | 0 => []
  | Nat.succ n =>
    match RecurrentPaymentAction.run users ChargeResult.paymentError a dt with
    | RunResult.ran (SchedReq.recurrentPayment a2 t2 :: []) _ =>
      SchedReq.recurrentPayment a2 t2 :: consecutiveFailures users a2 t2 n
    | RunResult.ran reqs _ => reqs
    | _ => []

/-! ### ExtraPlanResetAction.run and the cancellation sweeps -/

/-- `ExtraPlanResetAction.run` (app/common/billing_actions.py, lines
171-180): look the user up (a missing user only logs a warning) and merge
`{ADVANCED_SERVICE_STATE: AdvanceServiceState.UNUSED}` into their
`extra_data`. -/
def ExtraPlanResetAction.run (users : List User) (a : ExtraPlanResetAction) :
    List User :=
  match find_user users a.user_id with
  | none => users
  | some _ =>
    users.map (fun u =>
      if u.id == a.user_id then
        { u with
          extra_data := dictInsert u.extra_data ADVANCED_SERVICE_STATE
            (Value.int AdvanceServiceState_UNUSED) }
      else u)

/-- The combined state the billing actions operate on: the scheduler state
plus the `users` table slice. -/
structure BillingWorld where
  sched : SchedState
  users : List User
deriving DecidableEq

/-- `cancel_extra_punishments` (app/common/billing_actions.py, lines
237-250): fetch the pending actions of the user whose type is in
`[BillingActions.ExtraPlanPaymentRetry]` and `raw_cancel_action` each. -/
def cancel_extra_punishments (w : BillingWorld) (user_id : Int) :
    BillingWorld :=
  let billing_actions := find_scheduled_actions w.sched.store (some user_id)
    (some false) (some [BillingActions_ExtraPlanPaymentRetry])
  { w with
    sched := billing_actions.foldl (fun s p => raw_cancel_action s p.id) w.sched }

/-- The firing of the armed task of a persisted `ExtraPlanResetAction` row:
if the task was cancelled (no `scheduled_tasks` entry) nothing happens;
otherwise the `do_handle` adapter deserializes the captured kwargs and runs
the action, and `_perform_action` then marks the row done (an exception from
`deserialize` would be caught by the task wrapper, leaving the row
untouched). -/
def fireExtraPlanResetTask (w : BillingWorld) (action_id : Nat)
    (kwargs : Args) : BillingWorld :=
  if action_id ∈ w.sched.tasks then
    match ActionClass.deserialize ActionClass.extraPlanReset kwargs with
    | Except.error _ => w
    | Except.ok (AnyAction.extraPlanReset a) =>
      { sched := { w.sched with store := markDone w.sched.store action_id }
        users := ExtraPlanResetAction.run w.users a }
    | Except.ok _ => w
  else
    w

/-! ### Invariants of the scheduler state -/

/-- The claimed agreement between the in-memory `scheduled_tasks` index and
the store's `done` flags: an id is indexed exactly when its row is pending. -/
def tasks_agree (st : SchedState) : Prop :=
  ∀ id : Nat,
    id ∈ st.tasks ↔
      ∃ a, get_scheduled_action st.store id = some a ∧ a.done = false

/-- The autoincrement discipline: every stored row's id is below `nextId`. -/
def ids_fresh (st : SchedState) : Prop :=
  ∀ a ∈ st.store, a.id < st.nextId

/-! ### Concrete scenarios used as witnesses and counterexamples -/

/-- A user with an active plan whose price is set, so that
`RecurrentPaymentAction.run` reaches its charge call. -/
def demoUsers : List User := [⟨7, none, some ⟨1, some 100⟩, []⟩]

/-- User 7 of the extra-plan-reset scenario, with no marker set yet. -/
def c2User : User := ⟨7, none, none, []⟩

/-- A pending `ExtraPlanResetAction` row for user 7. -/
def c2Row : ScheduledAction :=
  ⟨0, some 7, 100, false, BillingActions_ExtraPlanReset, [("user_id", Value.int 7)]⟩

/-- The extra-plan-reset scenario: the reset row is persisted and armed. -/
def c2World : BillingWorld := ⟨⟨[c2Row], 1, {0}⟩, [c2User]⟩

/-- An empty scheduler state. -/
def c7Start : SchedState := ⟨[], 0, ∅⟩

/-- The state after scheduling one action of type `"kek"`. -/
def c7AfterSchedule : SchedState :=
  (raw_schedule_action c7Start "kek" 5 [("user_id", Value.int 1)]).1

/-- The state after the armed task for the scheduled action fired and its
handler returned cleanly. -/
def c7AfterFire : SchedState :=
  scheduled_action_task [("kek", 0)] HandlerOutcome.clean c7AfterSchedule 0 "kek"

/-- A store with one pending row (id 0) and one done row (id 1). -/
def c4Pending : ScheduledAction := ⟨0, some 3, 50, false, "kek", []⟩

def c4Done : ScheduledAction := ⟨1, some 3, 60, true, "kek", []⟩

def c4State : SchedState := ⟨[c4Pending, c4Done], 2, {0}⟩

/-- A store with one pending overdue row. -/
def c5Row : ScheduledAction := ⟨0, none, 5, false, "kek", []⟩

def c5State : SchedState := ⟨[c5Row], 1, ∅⟩

/-- An args mapping carrying a key that is not a declared field of
`RecurrentPaymentAction`. -/
def c10Data : Args := [("user_id", Value.int 7), ("stale", Value.int 1)]

/-! ## Helper lemmas -/

theorem get_eq_some_mem {store : List ScheduledAction} {id : Nat}
    {a : ScheduledAction} (h : get_scheduled_action store id = some a) :
    a ∈ store ∧ a.id = id := by
  refine ⟨List.mem_of_find?_eq_some h, ?_⟩
  have := List.find?_some h
  simpa using this

theorem get_markDone (store : List ScheduledAction) (pid id : Nat) :
    get_scheduled_action (markDone store pid) id =
      (get_scheduled_action store id).map
        (fun a => if a.id = pid then { a with done := true } else a) := by
  induction store with
  | nil => rfl
  | cons b rest ih =>
    have hhead : (if b.id = pid then { b with done := true } else b).id = b.id := by
      by_cases h : b.id = pid <;> simp [h]
    by_cases hid : (b.id == id) = true
    · have hhid : ((if b.id = pid then { b with done := true } else b).id == id) = true := by
        rw [hhead]; exact hid
      simp only [markDone, List.map_cons, get_scheduled_action]
      simp [List.find?_cons, hid, hhid]
    · have hid2 : (b.id == id) = false := by simpa using hid
      have hhid : ((if b.id = pid then { b with done := true } else b).id == id) = false := by
        rw [hhead]; exact hid2
      simp only [markDone, List.map_cons, get_scheduled_action]
      simp only [List.find?_cons, hid2, hhid]
      simpa [markDone, get_scheduled_action] using ih

theorem get_markDone_self {store : List ScheduledAction} {id : Nat}
    {a : ScheduledAction} (h : get_scheduled_action store id = some a) :
    get_scheduled_action (markDone store id) id = some { a with done := true } := by
  have hida := (get_eq_some_mem h).2
  rw [get_markDone, h]
  simp [hida]

theorem get_markDone_ne {store : List ScheduledAction} {pid id : Nat}
    (hne : pid ≠ id) :
    get_scheduled_action (markDone store pid) id = get_scheduled_action store id := by
  rw [get_markDone]
  cases hg : get_scheduled_action store id with
  | none => rfl
  | some a =>
    have hida := (get_eq_some_mem hg).2
    simp [hida, Ne.symm hne]

theorem raw_cancel_action_done_mono {st : SchedState} {pid i : Nat}
    {a : ScheduledAction} (h : get_scheduled_action st.store i = some a)
    (hdone : a.done = true) :
    ∃ a2, get_scheduled_action (raw_cancel_action st pid).store i = some a2 ∧
      a2.done = true := by
  unfold raw_cancel_action
  cases hg : get_scheduled_action st.store pid with
  | none => exact ⟨a, h, hdone⟩
  | some b =>
    dsimp only
    by_cases hb : b.done = true
    · rw [if_pos hb]
      exact ⟨a, h, hdone⟩
    · rw [if_neg hb]
      by_cases hpi : pid = i
      · subst hpi
        by_cases ht : pid ∈ st.tasks
        · rw [if_pos ht]
          exact ⟨{ a with done := true }, get_markDone_self h, rfl⟩
        · rw [if_neg ht]
          exact ⟨{ a with done := true }, get_markDone_self h, rfl⟩
      · have hother : get_scheduled_action (markDone st.store pid) i = some a := by
          rw [get_markDone_ne hpi]; exact h
        by_cases ht : pid ∈ st.tasks
        · rw [if_pos ht]
          exact ⟨a, hother, hdone⟩
        · rw [if_neg ht]
          exact ⟨a, hother, hdone⟩

theorem cancel_fold_done_mono :
    ∀ (ids : List Nat) (st : SchedState) (a : ScheduledAction),
      ∀ {i : Nat}, get_scheduled_action st.store i = some a → a.done = true →
      ∃ a2, get_scheduled_action (ids.foldl raw_cancel_action st).store i = some a2 ∧
        a2.done = true := by
  intro ids
  induction ids with
  | nil => intro st a i h hdone; exact ⟨a, h, hdone⟩
  | cons pid rest ih =>
    intro st a i h hdone
    obtain ⟨a2, h2, hdone2⟩ := @raw_cancel_action_done_mono st pid i a h hdone
    simpa using ih _ a2 h2 hdone2

theorem raw_cancel_action_preserves_other {st : SchedState} {pid i : Nat}
    (hne : pid ≠ i) :
    get_scheduled_action (raw_cancel_action st pid).store i =
      get_scheduled_action st.store i ∧
    (i ∈ (raw_cancel_action st pid).tasks ↔ i ∈ st.tasks) := by
  unfold raw_cancel_action
  cases hg : get_scheduled_action st.store pid with
  | none => exact ⟨rfl, Iff.rfl⟩
  | some b =>
    dsimp only
    by_cases hb : b.done = true
    · rw [if_pos hb]
      exact ⟨rfl, Iff.rfl⟩
    · rw [if_neg hb]
      by_cases ht : pid ∈ st.tasks
      · rw [if_pos ht]
        exact ⟨get_markDone_ne hne,
          by simp [Finset.mem_erase, Ne.symm hne]⟩
      · rw [if_neg ht]
        exact ⟨get_markDone_ne hne, Iff.rfl⟩

theorem cancel_fold_preserves_other {i : Nat} :
    ∀ (ids : List Nat) (st : SchedState), (∀ pid ∈ ids, pid ≠ i) →
      get_scheduled_action (ids.foldl raw_cancel_action st).store i =
        get_scheduled_action st.store i ∧
      (i ∈ (ids.foldl raw_cancel_action st).tasks ↔ i ∈ st.tasks) := by
  intro ids
  induction ids with
  | nil => intro st _; exact ⟨rfl, Iff.rfl⟩
  | cons pid rest ih =>
    intro st hne
    have h1 := @raw_cancel_action_preserves_other st pid i
      (hne pid (List.mem_cons_self pid rest))
    have h2 := ih (raw_cancel_action st pid)
      (fun p hp => hne p (List.mem_cons_of_mem _ hp))
    refine ⟨?_, ?_⟩
    · simpa [h1.1] using h2.1
    · simpa [h1.2] using h2.2

theorem mem_find_scheduled_actions {store : List ScheduledAction}
    {uid : Int} {d : Bool} {ts : List String} {p : ScheduledAction}
    (h : p ∈ find_scheduled_actions store (some uid) (some d) (some ts)) :
    p ∈ store ∧ p.user_id = some uid ∧ p.done = d ∧ p.type ∈ ts := by
  unfold find_scheduled_actions at h
  rw [List.mem_filter] at h
  obtain ⟨h1, hdone⟩ := h
  rw [List.mem_filter] at h1
  obtain ⟨h2, htype⟩ := h1
  rw [List.mem_filter] at h2
  obtain ⟨hmem, huid⟩ := h2
  refine ⟨hmem, ?_, ?_, ?_⟩
  · simpa using huid
  · simpa using hdone
  · simpa [List.contains_iff_exists_mem_beq] using htype

theorem lookup_dictInsert {α : Type} (d : Dict α) (k : String) (v : α) :
    (dictInsert d k v).lookup k = some v := by
  induction d with
  | nil => simp [dictInsert, List.lookup]
  | cons kv rest ih =>
    obtain ⟨k2, v2⟩ := kv
    by_cases h : k2 = k
    · simp [dictInsert, h, List.lookup]
    · have hbeq : (k == k2) = false := by simp [Ne.symm h]
      simp only [dictInsert, if_neg h]
      simpa [List.lookup, hbeq] using ih

theorem firstUnknownField_eq_none {fields : List String} :
    ∀ {data : Args}, firstUnknownField fields data = none →
      ∀ kv ∈ data, fields.contains kv.1 = true := by
  intro data
  induction data with
  | nil => intro _ kv hkv; simp at hkv
  | cons kv rest ih =>
    intro h kv2 hkv2
    unfold firstUnknownField at h
    by_cases hc : fields.contains kv.1 = true
    · rw [if_pos hc] at h
      rcases List.mem_cons.mp hkv2 with h2 | h2
      · subst h2; exact hc
      · exact ih h kv2 h2
    · rw [if_neg hc] at h
      exact absurd h (by simp)

theorem firstUnknownField_eq_some {fields : List String} :
    ∀ {data : Args}, (∃ kv ∈ data, fields.contains kv.1 = false) →
      ∃ k, firstUnknownField fields data = some k := by
  intro data
  induction data with
  | nil => intro h; obtain ⟨kv, hkv, _⟩ := h; simp at hkv
  | cons kv rest ih =>
    intro h
    unfold firstUnknownField
    by_cases hc : fields.contains kv.1 = true
    · rw [if_pos hc]
      obtain ⟨kv2, hkv2, hbad⟩ := h
      rcases List.mem_cons.mp hkv2 with h2 | h2
      · subst h2; rw [hc] at hbad; exact absurd hbad (by simp)
      · exact ih ⟨kv2, h2, hbad⟩
    · rw [if_neg hc]
      exact ⟨kv.1, rfl⟩

theorem find_user_map_update {users : List User} {uid : Int} {user : User}
    (g : User → User) (hg : ∀ u, (g u).id = u.id)
    (h : find_user users uid = some user) :
    find_user (users.map (fun u => if u.id == uid then g u else u)) uid =
      some (g user) := by
  induction users with
  | nil => simp [find_user] at h
  | cons b rest ih =>
    by_cases hb : (b.id == uid) = true
    · have hgb : ((g b).id == uid) = true := by rw [hg b]; exact hb
      rw [find_user, List.find?_cons] at h
      rw [hb] at h
      rw [List.map_cons, if_pos hb, find_user, List.find?_cons, hgb]
      cases h
      rfl
    · have hb2 : (b.id == uid) = false := by simpa using hb
      rw [find_user, List.find?_cons, hb2] at h
      rw [List.map_cons, if_neg hb, find_user, List.find?_cons, hb2]
      exact ih h

theorem mem_foldl_insert_tasks :
    ∀ (l : List ScheduledAction) (ts : Finset Nat) (i : Nat),
      i ∈ ts → i ∈ l.foldl (fun ts a => insert a.id ts) ts := by
  intro l
  induction l with
  | nil => intro ts i h; exact h
  | cons b rest ih =>
    intro ts i h
    exact ih _ i (Finset.mem_insert_of_mem h)

theorem mem_foldl_insert_tasks_of_mem :
    ∀ (l : List ScheduledAction) (ts : Finset Nat) (a : ScheduledAction),
      a ∈ l → a.id ∈ l.foldl (fun ts a => insert a.id ts) ts := by
  intro l
  induction l with
  | nil => intro ts a h; simp at h
  | cons b rest ih =>
    intro ts a h
    rcases List.mem_cons.mp h with h2 | h2
    · subst h2
      exact mem_foldl_insert_tasks rest _ a.id (Finset.mem_insert_self _ _)
    · exact ih _ a h2

theorem cancel_fold_rows_preserves_other {i : Nat} :
    ∀ (ps : List ScheduledAction) (st : SchedState), (∀ p ∈ ps, p.id ≠ i) →
      get_scheduled_action
          ((ps.foldl (fun s p => raw_cancel_action s p.id) st)).store i =
        get_scheduled_action st.store i ∧
      (i ∈ (ps.foldl (fun s p => raw_cancel_action s p.id) st).tasks ↔
        i ∈ st.tasks) := by
  intro ps
  induction ps with
  | nil => intro st _; exact ⟨rfl, Iff.rfl⟩
  | cons p rest ih =>
    intro st hne
    have h1 := @raw_cancel_action_preserves_other st p.id i
      (hne p (List.mem_cons_self p rest))
    have h2 := ih (raw_cancel_action st p.id)
      (fun q hq => hne q (List.mem_cons_of_mem _ hq))
    refine ⟨?_, ?_⟩
    · simpa [h1.1] using h2.1
    · simpa [h1.2] using h2.2

theorem deserialize_reset_userid (n : Int) :
    ActionClass.deserialize ActionClass.extraPlanReset [("user_id", Value.int n)] =
      Except.ok (AnyAction.extraPlanReset ⟨n⟩) := rfl

theorem get_append_single (store : List ScheduledAction) (row : ScheduledAction)
    (i : Nat) :
    get_scheduled_action (store ++ [row]) i =
      (get_scheduled_action store i).or
        (if row.id == i then some row else none) := by
  unfold get_scheduled_action
  rw [List.find?_append]
  congr 1
  by_cases h : (row.id == i) = true
  · rw [if_pos h]
    simp [List.find?_cons, h]
  · have h2 : (row.id == i) = false := by simpa using h
    rw [if_neg (by simp [h2])]
    simp [List.find?_cons, h2]

theorem consecutiveFailures_succ (users : List User) (a : RecurrentPaymentAction)
    (dt : Int) (n : Nat) :
    consecutiveFailures users a dt (n + 1) =
      (match RecurrentPaymentAction.run users ChargeResult.paymentError a dt with
      | RunResult.ran (SchedReq.recurrentPayment a2 t2 :: []) _ =>
        SchedReq.recurrentPayment a2 t2 :: consecutiveFailures users a2 t2 n
      | RunResult.ran reqs _ => reqs
      | _ => []) := rfl

theorem run_paymentError_eq (users : List User) (uid r : Int) (dt : Int)
    (h : chargeReachable users uid = true) :
    RecurrentPaymentAction.run users ChargeResult.paymentError ⟨uid, r⟩ dt =
      (if r > 0 then
        RunResult.ran
          [SchedReq.recurrentPayment ⟨uid, r - 1⟩ (dt + CHARGE_RETRY_PERIOD)] false
      else
        RunResult.ran
          [SchedReq.kickInactive ⟨uid⟩ (dt + AUTO_KICK_PERIOD)] false) := by
  unfold chargeReachable at h
  unfold RecurrentPaymentAction.run
  dsimp only
  cases hf : find_user users uid with
  | none => rw [hf] at h; simp at h
  | some user =>
    rw [hf] at h
    dsimp only at h
    dsimp only
    cases hs : user.subscription with
    | none => rw [hs] at h; simp at h
    | some plan =>
      rw [hs] at h
      dsimp only at h
      dsimp only
      cases hp : plan.price with
      | none => rw [hp] at h; simp at h
      | some price =>
        rw [hp] at h
        dsimp only at h
        dsimp only
        have hp0 : ¬ price = 0 := by simpa using h
        rw [if_neg hp0]

/-! ## Claim theorems -/

/-- Claim C1: retry-budget monotonicity of `RecurrentPaymentAction`.  For a
chargeable user, starting from `retries_left = N`, `N + 1` consecutive
`CpPaymentError` failures produce exactly `N` reschedules of a
`RecurrentPaymentAction` — the k-th at its firing time plus
`CHARGE_RETRY_PERIOD`, with `retries_left` decrementing `N-1, ..., 0` —
and the final failure (at `retries_left = 0`) schedules a
`KickInactiveAction` at its firing time plus `AUTO_KICK_PERIOD` instead of
another retry. -/
theorem recurrent_payment_retry_budget (users : List User) (uid : Int)
    (h : chargeReachable users uid = true) :
    ∀ (N : Nat) (dt : Int),
      consecutiveFailures users ⟨uid, (N : Int)⟩ dt (N + 1) =
        (List.range N).map (fun (k : Nat) =>
          SchedReq.recurrentPayment ⟨uid, (N : Int) - 1 - (k : Int)⟩
            (dt + ((k : Int) + 1) * CHARGE_RETRY_PERIOD)) ++
        [SchedReq.kickInactive ⟨uid⟩
          (dt + (N : Int) * CHARGE_RETRY_PERIOD + AUTO_KICK_PERIOD)] := by
  intro N
  induction N with
  | zero =>
    intro dt
    rw [consecutiveFailures_succ,
      run_paymentError_eq users uid (((0 : Nat) : Int)) dt h]
    rw [if_neg (by simp : ¬ (((0 : Nat) : Int) > 0))]
    dsimp only
    simp
  | succ n ih =>
    intro dt
    rw [consecutiveFailures_succ,
      run_paymentError_eq users uid ((((n : Nat) + 1 : Nat)) : Int) dt h]
    rw [if_pos (by push_cast; omega : ((((n : Nat) + 1 : Nat)) : Int) > 0)]
    dsimp only
    rw [show ((((n : Nat) + 1 : Nat)) : Int) - 1 = ((n : Nat) : Int) by push_cast; ring]
    rw [ih (dt + CHARGE_RETRY_PERIOD)]
    rw [List.range_succ_eq_map, List.map_cons, List.map_map, List.cons_append]
    refine congrArg₂ List.cons ?_ (congrArg₂ (fun x y => x ++ y) ?_ ?_)
    · simp
    · refine List.map_congr_left ?_
      intro k hk
      simp only [Function.comp_apply, SchedReq.recurrentPayment.injEq,
        RecurrentPaymentAction.mk.injEq, true_and]
      push_cast
      constructor <;> ring
    · simp only [List.cons.injEq, SchedReq.kickInactive.injEq, and_true, true_and]
      push_cast
      ring

/-- Witness for C1: user 7 has a priced plan; with `retries_left = 2`,
three consecutive failures yield two retries then a kick. -/
theorem recurrent_payment_retry_budget_witness :
    chargeReachable demoUsers 7 = true ∧
    consecutiveFailures demoUsers ⟨7, ((2 : Nat) : Int)⟩ 0 (2 + 1) =
      (List.range 2).map (fun (k : Nat) =>
        SchedReq.recurrentPayment ⟨7, ((2 : Nat) : Int) - 1 - (k : Int)⟩
          (0 + ((k : Int) + 1) * CHARGE_RETRY_PERIOD)) ++
      [SchedReq.kickInactive ⟨7⟩
        (0 + ((2 : Nat) : Int) * CHARGE_RETRY_PERIOD + AUTO_KICK_PERIOD)] :=
  ⟨by decide, recurrent_payment_retry_budget demoUsers 7 (by decide) 2 0⟩

/-- Claim C3: a fired action's row is marked done exactly when its handler
resolves and returns cleanly.  An unregistered action type makes the wrapper
log an error and return with the state untouched (`done` stays false); a
raising handler has its exception caught and logged, again leaving `done`
false; only a clean return marks the row done. -/
theorem fired_row_done_iff_clean_return (handlers : Handlers)
    (outcome : HandlerOutcome) (st : SchedState) (id : Nat) (ty : String)
    (a : ScheduledAction) (ha : get_scheduled_action st.store id = some a)
    (hdone : a.done = false) :
    (∃ a2, get_scheduled_action
        (scheduled_action_task handlers outcome st id ty).store id = some a2 ∧
      (a2.done = true ↔
        ((handlers.lookup ty).isSome = true ∧ outcome = HandlerOutcome.clean))) ∧
    ((handlers.lookup ty).isNone = true →
      scheduled_action_task handlers outcome st id ty = st) ∧
    (outcome = HandlerOutcome.raised →
      scheduled_action_task handlers outcome st id ty = st) := by
  unfold scheduled_action_task perform_action
  by_cases hl : (handlers.lookup ty).isNone = true
  · rw [if_pos hl]
    dsimp only
    refine ⟨⟨a, ha, ?_⟩, fun _ => rfl, fun _ => rfl⟩
    rw [hdone]
    simp [Option.isNone_iff_eq_none.mp hl]
  · rw [if_neg hl]
    cases outcome with
    | raised =>
      dsimp only
      refine ⟨⟨a, ha, ?_⟩, fun h => absurd h hl, fun _ => rfl⟩
      rw [hdone]
      simp
    | clean =>
      dsimp only
      have hs : (handlers.lookup ty).isSome = true := by
        cases hx : handlers.lookup ty with
        | none => exact absurd (by simp [hx]) hl
        | some f => simp
      refine ⟨⟨{ a with done := true }, get_markDone_self ha, ?_⟩,
        fun h => absurd h hl, fun h => by cases h⟩
      simp [hs]

/-- Witness for C3 at a concrete state: a pending row with a registered
handler whose clean return marks it done, next to the unregistered-type and
raising-handler no-op paths. -/
theorem fired_row_done_iff_clean_return_witness :
    get_scheduled_action c4State.store 0 = some c4Pending ∧
    c4Pending.done = false ∧
    ((∃ a2, get_scheduled_action
        (scheduled_action_task [("kek", 9)] HandlerOutcome.clean c4State 0 "kek").store 0 =
          some a2 ∧
      (a2.done = true ↔
        ((([("kek", 9)] : Handlers).lookup "kek").isSome = true ∧
          HandlerOutcome.clean = HandlerOutcome.clean))) ∧
    ((([("kek", 9)] : Handlers).lookup "kek").isNone = true →
      scheduled_action_task [("kek", 9)] HandlerOutcome.clean c4State 0 "kek" = c4State) ∧
    (HandlerOutcome.clean = HandlerOutcome.raised →
      scheduled_action_task [("kek", 9)] HandlerOutcome.clean c4State 0 "kek" = c4State)) :=
  ⟨by decide, by decide,
    fired_row_done_iff_clean_return [("kek", 9)] HandlerOutcome.clean c4State 0 "kek"
      c4Pending (by decide) (by decide)⟩

/-- Claim C4: `raw_cancel_action` is total and idempotent.  Cancelling a
missing id or an already-done action leaves the whole state unchanged (only
a warning is logged); cancelling a pending action sets its `done` flag; and
no sequence of cancellations ever turns a `done = true` flag back to
false. -/
theorem cancel_is_idempotent_and_done_monotone (st : SchedState) (id : Nat) :
    (get_scheduled_action st.store id = none → raw_cancel_action st id = st) ∧
    (∀ a, get_scheduled_action st.store id = some a → a.done = true →
      raw_cancel_action st id = st) ∧
    (∀ a, get_scheduled_action st.store id = some a → a.done = false →
      get_scheduled_action (raw_cancel_action st id).store id =
        some { a with done := true }) ∧
    (∀ (ids : List Nat) (i : Nat) (a : ScheduledAction),
      get_scheduled_action st.store i = some a → a.done = true →
      ∃ a2, get_scheduled_action (ids.foldl raw_cancel_action st).store i = some a2 ∧
        a2.done = true) := by
  refine ⟨?_, ?_, ?_, ?_⟩
  · intro h
    unfold raw_cancel_action
    rw [h]
  · intro a ha hd
    unfold raw_cancel_action
    rw [ha]
    dsimp only
    rw [if_pos hd]
  · intro a ha hd
    unfold raw_cancel_action
    rw [ha]
    dsimp only
    rw [if_neg (by simp [hd])]
    by_cases ht : id ∈ st.tasks
    · rw [if_pos ht]
      exact get_markDone_self ha
    · rw [if_neg ht]
      exact get_markDone_self ha
  · intro ids i a ha hd
    exact cancel_fold_done_mono ids st a ha hd

/-- Witness for C4 at a concrete state: cancelling a missing id and a done
id are no-ops, cancelling the pending row sets its flag, and a fold of
cancellations keeps the done row done. -/
theorem cancel_is_idempotent_and_done_monotone_witness :
    (get_scheduled_action c4State.store 9 = none → raw_cancel_action c4State 9 = c4State) ∧
    (raw_cancel_action c4State 1 = c4State) ∧
    (get_scheduled_action (raw_cancel_action c4State 0).store 0 =
      some { c4Pending with done := true }) ∧
    (∃ a2, get_scheduled_action
        (([0, 0, 1, 9].foldl raw_cancel_action c4State)).store 1 = some a2 ∧
      a2.done = true) :=
  ⟨(cancel_is_idempotent_and_done_monotone c4State 9).1,
    (cancel_is_idempotent_and_done_monotone c4State 1).2.1 c4Done (by decide) (by decide),
    (cancel_is_idempotent_and_done_monotone c4State 0).2.2.1 c4Pending (by decide) (by decide),
    (cancel_is_idempotent_and_done_monotone c4State 0).2.2.2 [0, 0, 1, 9] 1 c4Done
      (by decide) (by decide)⟩

/-- Claim C5: every persisted pending action whose due time is already past
at startup is armed by the startup scan, and its wait is zero or negative,
so the task fires immediately (at `now`) instead of being skipped or
delayed. -/
theorem startup_fires_overdue_immediately (st : SchedState) (now : Int)
    (a : ScheduledAction) (hmem : a ∈ st.store) (hdone : a.done = false)
    (hpast : a.time ≤ now) :
    a.id ∈ (scheduler_run st).tasks ∧
    wait_until_delay a.time now ≤ 0 ∧
    fire_time a.time now = now := by
  refine ⟨?_, ?_, ?_⟩
  · show a.id ∈ (get_pending_actions st.store).foldl
      (fun ts a => insert a.id ts) st.tasks
    apply mem_foldl_insert_tasks_of_mem
    unfold get_pending_actions
    rw [List.mem_filter]
    exact ⟨hmem, by simp [hdone]⟩
  · unfold wait_until_delay
    omega
  · unfold fire_time wait_until_delay
    rw [max_eq_right (by omega : a.time - now ≤ (0 : Int))]
    omega

/-- Witness for C5: a pending row due at time 5, started at time 10. -/
theorem startup_fires_overdue_immediately_witness :
    c5Row ∈ c5State.store ∧ c5Row.done = false ∧ c5Row.time ≤ 10 ∧
    (c5Row.id ∈ (scheduler_run c5State).tasks ∧
      wait_until_delay c5Row.time 10 ≤ 0 ∧
      fire_time c5Row.time 10 = 10) :=
  ⟨by decide, by decide, by decide,
    startup_fires_overdue_immediately c5State 10 c5Row (by decide) (by decide)
      (by decide)⟩

/-- Counterexample to claim C6: registering a second handler for an existing
action type through `raw_action_handler` raises nothing — the decorator body
is a bare dictionary assignment — and silently replaces the previously
registered handler. -/
theorem raw_handler_duplicate_silently_replaces :
    raw_action_handler (raw_action_handler [] "kek" 1) "kek" 2 = [("kek", 2)] ∧
    (raw_action_handler (raw_action_handler [] "kek" 1) "kek" 2).lookup "kek" =
      some 2 := by
  exact ⟨rfl, rfl⟩

/-- Claim C6 as amended: declaring a typed `Action` subclass whose
`action_name` is already registered (by either mechanism) raises a
`ValueError` at class-definition time, but the legacy `raw_action_handler`
decorator performs no duplicate check and silently overwrites the existing
registration. -/
theorem typed_registration_raises_on_duplicate (handlers : Handlers)
    (name : String) (func : HandlerId)
    (hdup : (handlers.lookup name).isSome = true) :
    Action_init_subclass handlers name func =
      Except.error "Action already exists" ∧
    (raw_action_handler handlers name func).lookup name = some func := by
  constructor
  · unfold Action_init_subclass
    rw [if_pos hdup]
  · exact lookup_dictInsert handlers name func

/-- Witness for the amended C6: a registry already holding `"kek"`. -/
theorem typed_registration_raises_on_duplicate_witness :
    ((([("kek", 1)] : Handlers).lookup "kek").isSome = true) ∧
    (Action_init_subclass [("kek", 1)] "kek" 2 =
      Except.error "Action already exists" ∧
    (raw_action_handler [("kek", 1)] "kek" 2).lookup "kek" = some 2) :=
  ⟨by decide, typed_registration_raises_on_duplicate [("kek", 1)] "kek" 2 (by decide)⟩

/-- Claim C8: serialization round-trips.  For every concrete typed action
value, deserializing the mapping produced by `serialize` (exactly the
declared dataclass fields) through the same concrete class yields an equal
value. -/
theorem action_serialize_roundtrip (a : AnyAction) :
    ActionClass.deserialize a.cls a.serialize = Except.ok a := by
  cases a <;> rfl

/-- Claim C9: `ActionHandle.get_action` (and therefore `is_done`) raises a
`ValueError` whenever the store holds no row for the handle's id, and
returns the row (respectively its `done` flag) exactly when the row
exists. -/
theorem handle_raises_on_missing_row (store : List ScheduledAction)
    (h : ActionHandle) :
    (get_scheduled_action store h.action_id = none →
      h.get_action store = Except.error "Handle points to missing action" ∧
      h.is_done store = Except.error "Handle points to missing action") ∧
    (∀ a, get_scheduled_action store h.action_id = some a →
      h.get_action store = Except.ok a ∧ h.is_done store = Except.ok a.done) := by
  constructor
  · intro hnone
    unfold ActionHandle.is_done ActionHandle.get_action
    rw [hnone]
    exact ⟨rfl, rfl⟩
  · intro a ha
    unfold ActionHandle.is_done ActionHandle.get_action
    rw [ha]
    exact ⟨rfl, rfl⟩

/-- Witness for C9: a handle over an empty store errors; a handle over a
store holding its row returns the row's flag. -/
theorem handle_raises_on_missing_row_witness :
    (get_scheduled_action ([] : List ScheduledAction) (0 : Nat) = none →
      ActionHandle.get_action ⟨0⟩ [] =
        Except.error "Handle points to missing action" ∧
      ActionHandle.is_done ⟨0⟩ [] =
        Except.error "Handle points to missing action") ∧
    (ActionHandle.get_action ⟨1⟩ c4State.store = Except.ok c4Done ∧
      ActionHandle.is_done ⟨1⟩ c4State.store = Except.ok c4Done.done) :=
  ⟨(handle_raises_on_missing_row [] ⟨0⟩).1,
    (handle_raises_on_missing_row c4State.store ⟨1⟩).2 c4Done (by decide)⟩

/-- Claim C10: `Action.deserialize` rejects unknown keys.  Whenever the data
mapping holds a key that is not a declared field of the concrete class, the
assertion loop fails (naming the first such key), and an instance is
constructed only when every key of the mapping is a declared field. -/
theorem deserialize_rejects_unknown_keys (c : ActionClass) (data : Args) :
    ((∃ kv ∈ data, c.fields.contains kv.1 = false) →
      ∃ name, ActionClass.deserialize c data =
        Except.error (DeserializeError.assertUnknownField name)) ∧
    (∀ a, ActionClass.deserialize c data = Except.ok a →
      ∀ kv ∈ data, c.fields.contains kv.1 = true) := by
  constructor
  · intro hbad
    obtain ⟨k, hk⟩ := firstUnknownField_eq_some hbad
    refine ⟨k, ?_⟩
    unfold ActionClass.deserialize
    rw [hk]
  · intro a hok kv hkv
    have hnone : firstUnknownField c.fields data = none := by
      cases hf : firstUnknownField c.fields data with
      | none => rfl
      | some k =>
        unfold ActionClass.deserialize at hok
        rw [hf] at hok
        simp at hok
    exact firstUnknownField_eq_none hnone kv hkv

/-- Witness for C10: a mapping with the stale key `"stale"` is rejected for
`RecurrentPaymentAction`, and a successfully decoded mapping has only
declared keys. -/
theorem deserialize_rejects_unknown_keys_witness :
    (∃ kv ∈ c10Data, (ActionClass.recurrentPayment.fields.contains kv.1) = false) ∧
    (∃ name, ActionClass.deserialize ActionClass.recurrentPayment c10Data =
      Except.error (DeserializeError.assertUnknownField name)) :=
  ⟨by decide,
    (deserialize_rejects_unknown_keys ActionClass.recurrentPayment c10Data).1
      (by decide)⟩

/-- Counterexample to claim C2: `cancel_extra_punishments` filters only on
the type `BillingActions.ExtraPlanPaymentRetry`, so a pending
`ExtraPlanResetAction` scheduled for user 7 is not cancelled by it — the
call leaves the whole world unchanged — and when the reset action's armed
task later fires it does run: user 7's `ADVANCED_SERVICE_STATE` marker is
written (to `UNUSED`) and the row becomes done through completion, not
cancellation. -/
theorem cancel_extra_punishments_misses_reset_action :
    cancel_extra_punishments c2World 7 = c2World ∧
    (fireExtraPlanResetTask (cancel_extra_punishments c2World 7) 0 c2Row.args).users =
      [{ c2User with
        extra_data := [(ADVANCED_SERVICE_STATE, Value.int AdvanceServiceState_UNUSED)] }] ∧
    get_scheduled_action
      (fireExtraPlanResetTask
        (cancel_extra_punishments c2World 7) 0 c2Row.args).sched.store 0 =
      some { c2Row with done := true } := by
  exact ⟨by decide, by decide, by decide⟩

/-- Claim C2 as amended: `cancel_extra_punishments(user)` cancels only the
user's pending `ExtraPlanPaymentRetry` actions.  A scheduled
`ExtraPlanResetAction` row is untouched by it and stays armed, so when its
time arrives its task does run: the user's `ADVANCED_SERVICE_STATE` marker
is set to `UNUSED` and the row is marked done by completion rather than
being cancelled. -/
theorem cancel_extra_punishments_spares_reset (w : BillingWorld) (uid : Int)
    (id : Nat) (a : ScheduledAction) (uid2 : Int) (user : User)
    (hids : (w.sched.store.map ScheduledAction.id).Nodup)
    (ha : get_scheduled_action w.sched.store id = some a)
    (htype : a.type = BillingActions_ExtraPlanReset)
    (hargs : a.args = [("user_id", Value.int uid2)])
    (huser : find_user w.users uid2 = some user)
    (harmed : id ∈ w.sched.tasks) :
    get_scheduled_action (cancel_extra_punishments w uid).sched.store id = some a ∧
    id ∈ (cancel_extra_punishments w uid).sched.tasks ∧
    find_user (fireExtraPlanResetTask (cancel_extra_punishments w uid) id a.args).users uid2 =
      some { user with extra_data := (dictInsert user.extra_data ADVANCED_SERVICE_STATE
        (Value.int AdvanceServiceState_UNUSED)) } ∧
    get_scheduled_action
      (fireExtraPlanResetTask (cancel_extra_punishments w uid) id a.args).sched.store id =
      some { a with done := true } := by
  have hdiff : ∀ p ∈ find_scheduled_actions w.sched.store (some uid) (some false)
      (some [BillingActions_ExtraPlanPaymentRetry]), p.id ≠ id := by
    intro p hp heq
    obtain ⟨hpmem, _, _, hptype⟩ := mem_find_scheduled_actions hp
    obtain ⟨hamem, haid⟩ := get_eq_some_mem ha
    have hpa : p = a :=
      List.inj_on_of_nodup_map hids hpmem hamem (by rw [heq, haid])
    rw [hpa, htype] at hptype
    rw [List.mem_singleton] at hptype
    exact absurd hptype (by decide)
  have hpres := cancel_fold_rows_preserves_other (i := id)
    (find_scheduled_actions w.sched.store (some uid) (some false)
      (some [BillingActions_ExtraPlanPaymentRetry])) w.sched hdiff
  have hdeser : ActionClass.deserialize ActionClass.extraPlanReset a.args =
      Except.ok (AnyAction.extraPlanReset ⟨uid2⟩) := by
    rw [hargs]; rfl
  have hget : get_scheduled_action (cancel_extra_punishments w uid).sched.store id =
      some a := by
    unfold cancel_extra_punishments
    dsimp only
    rw [hpres.1]
    exact ha
  have htasks : id ∈ (cancel_extra_punishments w uid).sched.tasks := by
    unfold cancel_extra_punishments
    dsimp only
    exact hpres.2.mpr harmed
  have husers : (cancel_extra_punishments w uid).users = w.users := rfl
  refine ⟨hget, htasks, ?_, ?_⟩
  · unfold fireExtraPlanResetTask
    rw [if_pos htasks, hdeser]
    dsimp only
    unfold ExtraPlanResetAction.run
    dsimp only
    rw [husers, huser]
    dsimp only
    exact find_user_map_update _ (fun u => rfl) huser
  · unfold fireExtraPlanResetTask
    rw [if_pos htasks, hdeser]
    dsimp only
    exact get_markDone_self hget

/-- Witness for the amended C2: the concrete reset-row world satisfies
every hypothesis, and the conclusion holds there. -/
theorem cancel_extra_punishments_spares_reset_witness :
    (c2World.sched.store.map ScheduledAction.id).Nodup ∧
    get_scheduled_action c2World.sched.store 0 = some c2Row ∧
    c2Row.type = BillingActions_ExtraPlanReset ∧
    c2Row.args = [("user_id", Value.int 7)] ∧
    find_user c2World.users 7 = some c2User ∧
    0 ∈ c2World.sched.tasks ∧
    (get_scheduled_action (cancel_extra_punishments c2World 7).sched.store 0 =
        some c2Row ∧
      0 ∈ (cancel_extra_punishments c2World 7).sched.tasks ∧
      find_user
          (fireExtraPlanResetTask (cancel_extra_punishments c2World 7) 0 c2Row.args).users 7 =
        some { c2User with extra_data := (dictInsert c2User.extra_data
          ADVANCED_SERVICE_STATE (Value.int AdvanceServiceState_UNUSED)) } ∧
      get_scheduled_action
          (fireExtraPlanResetTask
            (cancel_extra_punishments c2World 7) 0 c2Row.args).sched.store 0 =
        some { c2Row with done := true }) :=
  ⟨by decide, by decide, by decide, by decide, by decide, by decide,
    cancel_extra_punishments_spares_reset c2World 7 0 c2Row 7 c2User (by decide)
      (by decide) (by decide) (by decide) (by decide) (by decide)⟩

/-- Counterexample to claim C7: after an action is scheduled and its task
fires to clean completion, the row is `done = true` but the id is still
present in the `scheduled_tasks` index — `_perform_action` never removes
entries (only `raw_cancel_action` does) — so the index does not agree with
the store's done flags after a natural completion. -/
theorem natural_completion_leaves_index_entry :
    (0 ∈ c7AfterFire.tasks ∧
      get_scheduled_action c7AfterFire.store 0 =
        some ⟨0, some 1, 5, true, "kek", [("user_id", Value.int 1)]⟩) ∧
    ¬ tasks_agree c7AfterFire := by
  constructor
  · exact ⟨by decide, by decide⟩
  · intro hA
    obtain ⟨a, ha, hd⟩ := (hA 0).mp (by decide)
    rw [show get_scheduled_action c7AfterFire.store 0 =
      some ⟨0, some 1, 5, true, "kek", [("user_id", Value.int 1)]⟩ from by decide] at ha
    cases ha
    simp at hd

/-- Claim C7 as amended: scheduling and cancellation each preserve the
agreement between the in-memory `scheduled_tasks` index and the store's
done flags (an id is indexed iff its row is pending), but a fire to clean
completion does not — the completed row becomes `done = true` while its id
remains in the index, because only cancellation removes index entries. -/
theorem index_store_agreement_per_operation (st : SchedState)
    (hagree : tasks_agree st) (hfresh : ids_fresh st) :
    (∀ (ty : String) (time : Int) (kwargs : Args),
      tasks_agree (raw_schedule_action st ty time kwargs).1) ∧
    (∀ pid, tasks_agree (raw_cancel_action st pid)) ∧
    (∀ (handlers : Handlers) (id : Nat) (ty : String) (a : ScheduledAction),
      get_scheduled_action st.store id = some a → a.done = false →
      id ∈ (scheduled_action_task handlers HandlerOutcome.clean st id ty).tasks ∧
      ((handlers.lookup ty).isSome = true →
        get_scheduled_action
          (scheduled_action_task handlers HandlerOutcome.clean st id ty).store id =
          some { a with done := true })) := by
  have hnone : get_scheduled_action st.store st.nextId = none := by
    unfold get_scheduled_action
    rw [List.find?_eq_none]
    intro x hx
    simp only [beq_iff_eq]
    exact Nat.ne_of_lt (hfresh x hx)
  refine ⟨?_, ?_, ?_⟩
  · intro ty time kwargs i
    unfold raw_schedule_action
    dsimp only
    by_cases hi : i = st.nextId
    · subst hi
      constructor
      · intro _
        refine ⟨ScheduledAction.mk st.nextId (extractUserId kwargs) time false ty kwargs,
          ?_, rfl⟩
        rw [get_append_single, hnone]
        simp
      · intro _
        exact Finset.mem_insert_self _ _
    · have hrow : get_scheduled_action
          (st.store ++
            [ScheduledAction.mk st.nextId (extractUserId kwargs) time false ty kwargs]) i =
          get_scheduled_action st.store i := by
        rw [get_append_single]
        rw [if_neg (by simp [Ne.symm hi])]
        exact Option.or_none
      rw [hrow]
      constructor
      · intro hmem
        rcases Finset.mem_insert.mp hmem with h | h
        · exact absurd h hi
        · exact (hagree i).mp h
      · intro hex
        exact Finset.mem_insert_of_mem ((hagree i).mpr hex)
  · intro pid i
    unfold raw_cancel_action
    cases hg : get_scheduled_action st.store pid with
    | none => exact hagree i
    | some b =>
      dsimp only
      by_cases hb : b.done = true
      · rw [if_pos hb]
        exact hagree i
      · rw [if_neg hb]
        have hpidt : pid ∈ st.tasks := (hagree pid).mpr ⟨b, hg, by simpa using hb⟩
        rw [if_pos hpidt]
        dsimp only
        by_cases hi : i = pid
        · subst hi
          constructor
          · intro hmem
            exact absurd (Finset.mem_erase.mp hmem).1 (by simp)
          · intro hex
            obtain ⟨a2, ha2, hd2⟩ := hex
            rw [get_markDone_self hg] at ha2
            cases ha2
            simp at hd2
        · constructor
          · intro hmem
            obtain ⟨a2, ha2, hd2⟩ := (hagree i).mp (Finset.mem_erase.mp hmem).2
            refine ⟨a2, ?_, hd2⟩
            rw [get_markDone_ne (fun he => hi he.symm)]
            exact ha2
          · intro hex
            obtain ⟨a2, ha2, hd2⟩ := hex
            rw [get_markDone_ne (fun he => hi he.symm)] at ha2
            exact Finset.mem_erase.mpr ⟨hi, (hagree i).mpr ⟨a2, ha2, hd2⟩⟩
  · intro handlers id ty a ha hd
    have hidt : id ∈ st.tasks := (hagree id).mpr ⟨a, ha, hd⟩
    unfold scheduled_action_task perform_action
    by_cases hl : (handlers.lookup ty).isNone = true
    · rw [if_pos hl]
      dsimp only
      refine ⟨hidt, fun hs => ?_⟩
      rw [Option.isNone_iff_eq_none.mp hl] at hs
      simp at hs
    · rw [if_neg hl]
      dsimp only
      exact ⟨hidt, fun _ => get_markDone_self ha⟩

/-- Witness for the amended C7: the one-action state after a schedule
satisfies the agreement and freshness hypotheses; scheduling another action
and cancelling preserve agreement, while the clean completion leaves the
id in the index with the row done. -/
theorem index_store_agreement_per_operation_witness :
    tasks_agree c7AfterSchedule ∧ ids_fresh c7AfterSchedule ∧
    tasks_agree (raw_schedule_action c7AfterSchedule "kek2" 9 []).1 ∧
    tasks_agree (raw_cancel_action c7AfterSchedule 0) ∧
    (0 ∈ (scheduled_action_task [("kek", 3)] HandlerOutcome.clean
        c7AfterSchedule 0 "kek").tasks ∧
      ((([("kek", 3)] : Handlers).lookup "kek").isSome = true →
        get_scheduled_action (scheduled_action_task [("kek", 3)]
            HandlerOutcome.clean c7AfterSchedule 0 "kek").store 0 =
          some ⟨0, some 1, 5, true, "kek", [("user_id", Value.int 1)]⟩)) := by
  have hstate : c7AfterSchedule =
      ⟨[⟨0, some 1, 5, false, "kek", [("user_id", Value.int 1)]⟩], 1, {0}⟩ := by
    decide
  have hA : tasks_agree c7AfterSchedule := by
    rw [hstate]
    intro i
    by_cases hi : i = 0
    · subst hi
      refine ⟨fun _ => ⟨_, rfl, rfl⟩, fun _ => by decide⟩
    · constructor
      · intro hmem
        exact absurd (Finset.mem_singleton.mp hmem) hi
      · intro hex
        obtain ⟨a2, ha2, hd2⟩ := hex
        rw [show get_scheduled_action
            [(⟨0, some 1, 5, false, "kek", [("user_id", Value.int 1)]⟩ : ScheduledAction)] i =
            none from ?_] at ha2
        · cases ha2
        · unfold get_scheduled_action
          rw [List.find?_eq_none]
          intro x hx
          rw [List.mem_singleton] at hx
          subst hx
          simp [Ne.symm hi]
  have hF : ids_fresh c7AfterSchedule := by
    rw [hstate]
    intro a ha
    rw [List.mem_singleton] at ha
    subst ha
    decide
  have main := index_store_agreement_per_operation c7AfterSchedule hA hF
  exact ⟨hA, hF, main.1 "kek2" 9 [], main.2.1 0,
    main.2.2 [("kek", 3)] 0 "kek"
      ⟨0, some 1, 5, false, "kek", [("user_id", Value.int 1)]⟩ (by decide) (by decide)⟩

end Busy
